import Mathlib

/-!
Verification development for the predictive-maintenance model-training
pipeline (notebook `src/Notebooks/ModelTraining.ipynb`).  The notebook
data-preparation logic is embedded shallowly: a pandas row becomes a
`Record`, dataframes become lists of records, and each notebook cell
becomes a Lean function.  Column-level facts (which columns survive into
the feature matrix) are tracked by a separate light-weight `Frame` model,
and the CSV loader by a `Table` model.
-/

/-- Column name constants, as they appear in the notebook. -/
def colEntryID : String := "entryID"

/-- Column name for the operating cycle. -/
def colCycle : String := "cycle"

/-- Column name for the failure code. -/
def colFailure : String := "failure"

/-- Column name for remaining useful life. -/
def colRul : String := "rul"

/-- Column name for the sequence identifier. -/
def colSequenceID : String := "sequenceID"

/-- Column name for the machine identifier. -/
def colMachineID : String := "machineID"

/-- One row of the unified feature table.  `rul = none` models a NaN
remaining-useful-life value (machines whose run does not end in failure);
`failure` is the failure-type code read as a string (empty for none). -/
structure Record where
  entryID : Nat
  machineID : Nat
  cycle : Int
  sequenceID : Nat
  rul : Option Int
  failure : String
  features : List Int
deriving DecidableEq

/-- Python truthiness of the `rul` cell, as evaluated by the notebook guard
`row.rul and row.rul < w`.  A NaN float is truthy in Python, a zero value
is falsy, any other number is truthy. -/
def pyTruthyRul : Option Int → Bool
  | none => true
  | some v => v != 0

/-- The Python comparison `row.rul < w`: a NaN compares false against
anything, otherwise the numeric comparison. -/
def pyRulLt (rul : Option Int) (w : Int) : Bool :=
  match rul with
  | none => false
  | some v => v < w

/-- The labeling lambda of the notebook function `xy`:
`f = lambda row: row.failure if row.rul and row.rul < w else ''`. -/
def labelOf (r : Record) (w : Int) : String :=
  if pyTruthyRul r.rul && pyRulLt r.rul w then r.failure else ""

/-- The group `combined_df[combined_df.rul.isna()]` restricted to one
machine: the records of machine `m` whose `rul` is null. -/
def nullRulRecords (data : List Record) (m : Nat) : List Record :=
  data.filter (fun r => r.rul == none && r.machineID == m)

/-- Maximum of a list of integers, `none` on the empty list (the `max`
aggregation over a possibly empty group). -/
def foldlMax1 : List Int → Option Int
  | [] => none
  | c :: cs => some (cs.foldl max c)

/-- Minimum of a list of integers, `none` on the empty list (the `min`
aggregation over a possibly empty group). -/
def foldlMin1 : List Int → Option Int
  | [] => none
  | c :: cs => some (cs.foldl min c)

/-- The notebook per-machine `max_cycle` column: the aggregation of max and
count followed by the row-wise apply of `max - min(count, w)`,
over the null-`rul` records of machine `m`; `none` models the NaN that the
left join leaves for machines with no null-`rul` record. -/
def maxCycleOf (data : List Record) (m : Nat) (w : Int) : Option Int :=
  (foldlMax1 ((nullRulRecords data m).map Record.cycle)).map
    (fun mx => mx - min (Int.ofNat (nullRulRecords data m).length) w)

/-- The false-negative pre-filter (notebook cell computing `data`):
keep a row iff the machine value `max_cycle` is NaN or `cycle <= max_cycle`. -/
def preFilter (data : List Record) (w : Int) : List Record :=
  data.filter (fun r =>
    match maxCycleOf data r.machineID w with
    | none => true
    | some mc => r.cycle ≤ mc)

/-- The cells `data.set_index` and `data.sort_index` on entryID: sort the records by
`entryID` (entry identifiers are unique, so any sort agrees). -/
def sortByEntry (data : List Record) : List Record :=
  List.insertionSort (fun a b => a.entryID ≤ b.entryID) data

/-- The notebook value `min_cycles` for machine `m`: the minimum test
cycle of that machine, `none` (NaN after the join) if the machine has no
test record. -/
def minTestCycle (test : List Record) (m : Nat) : Option Int :=
  foldlMin1 ((test.filter (fun r => r.machineID == m)).map Record.cycle)

/-- The keep-condition of the time-dependent split:
`t.max_cycle.isna() | (t.cycle < t.max_cycle)` where
`max_cycle = min_test_cycle(machine) - lookback`. -/
def timeKeep (test : List Record) (lookback : Int) (r : Record) : Bool :=
  match minTestCycle test r.machineID with
  | none => true
  | some mc => r.cycle < mc - lookback

/-- The time-dependent split: sort by `entryID`, cut at position `nTrain`
(`train_test_split` with `shuffle=False`), then remove from the candidate
train set every record whose cycle reaches into the lookback window before
the first test cycle of its machine. -/
def timeSplit (data : List Record) (nTrain : Nat) (lookback : Int) :
    List Record × List Record :=
  let d := sortByEntry data
  ((d.take nTrain).filter (timeKeep (d.drop nTrain) lookback), d.drop nTrain)

/-- The asset-ID-based split.  The notebook shuffles the unique machine
identifiers with a seeded `train_test_split` and assigns each machine
wholly to one side; the shuffled identifier list is passed in as `perm`
and cut at position `nA`. -/
def assetIdSplit (data : List Record) (perm : List Nat) (nA : Nat) :
    List Record × List Record :=
  (data.filter (fun r => (perm.take nA).contains r.machineID),
   data.filter (fun r => (perm.drop nA).contains r.machineID))

/-- Number of occurrences of label `c` in a label column. -/
def countLabel (labels : List String) (c : String) : Nat :=
  List.count c labels

/-- The size of the largest class in a label column. -/
def majorityCount (labels : List String) : Nat :=
  (labels.map (countLabel labels)).foldl Nat.max 0

/-- Modelled from the spec: the synthetic rows SMOTE adds.  The balancer
itself (`imblearn.over_sampling.SMOTE.fit_sample`) is an external library
call with no source in this repository; the spec states that every class
is oversampled up to the original count of the majority class, so for each
distinct class the model appends the missing number of rows of that
class. -/
def smotePad (labels : List String) : List String :=
  labels.dedup.flatMap
    (fun c => List.replicate (majorityCount labels - countLabel labels c) c)

/-- Modelled from the spec: the label column after
`sm.fit_sample(X_train, Y_train)` — the original labels followed by the
synthetic minority rows. -/
def smoteBalance (labels : List String) : List String :=
  labels ++ smotePad labels

/-- Column-level view of a dataframe: the optional index column and the
list of data columns. -/
structure Frame where
  indexCol : Option String
  cols : List String
deriving DecidableEq

/-- Pandas `set_index` on entryID: the column `entryID` moves from the columns
into the index. -/
def setIndexEntry (f : Frame) : Frame :=
  { indexCol := some colEntryID, cols := f.cols.filter (fun c => c != colEntryID) }

/-- Pandas `reset_index` with `drop=True`: the index is discarded, not
reinserted as a column. -/
def resetIndexDrop (f : Frame) : Frame :=
  { indexCol := none, cols := f.cols }

/-- The notebook list `columns_to_drop` in the `xy` function. -/
def columnsToDrop : List String :=
  [colCycle, colFailure, colRul, colSequenceID, colMachineID]

/-- Pandas `drop` of the listed columns, at the column level. -/
def dropColumns (cols toDrop : List String) : List String :=
  cols.filter (fun c => !(toDrop.contains c))

/-- The columns of the feature matrix returned by `xy`:
`data.reset_index(drop=True)` followed by `data.drop(columns_to_drop, axis=1)`. -/
def xyFeatureCols (f : Frame) : List String :=
  dropColumns (resetIndexDrop f).cols columnsToDrop

/-- A source table read by `pd.read_csv`: its column names and its rows as
association lists from column name to value. -/
structure Table where
  cols : List String
  rows : List (List (String × Int))
deriving DecidableEq

/-- Deduplicate a list of column names keeping the first occurrence of
each, given the names already seen. -/
def firstDedupAux (seen : List String) : List String → List String
  | [] => []
  | c :: cs =>
    if seen.contains c then firstDedupAux seen cs
    else c :: firstDedupAux (c :: seen) cs

/-- Deduplicate a list of column names keeping first occurrences: the
column order `pd.concat` produces. -/
def firstDedup (l : List String) : List String :=
  firstDedupAux [] l

/-- Align one row to a target column list, as `pd.concat` does: a column
missing from the row gets NaN (`none`). -/
def alignRow (cols : List String) (row : List (String × Int)) :
    List (String × Option Int) :=
  cols.map (fun c => (c, (row.find? (fun p => p.1 == c)).map Prod.snd))

/-- The cell `combined_df = pd.concat(dfs, ignore_index=True)`: the union of the
source columns in order of first appearance, and all source rows in
order, each aligned to the union columns with NaN for missing cells. -/
def pdConcat (tables : List Table) : List String × List (List (String × Option Int)) :=
  (firstDedup (tables.flatMap Table.cols),
   (tables.flatMap Table.rows).map (alignRow (firstDedup (tables.flatMap Table.cols))))

/-- Modelled from the spec: the error taxonomy entry for the loader. -/
inductive LoadError where
  | schemaMismatch
deriving DecidableEq

/-- Two column lists describe the same column set. -/
def sameColumnSet (c1 c2 : List String) : Bool :=
  c1.all (fun c => c2.contains c) && c2.all (fun c => c1.contains c)

/-- Modelled from the spec: the Record Store Loader as the spec describes
it — it fails with `SchemaMismatchError` when the source column sets
differ and otherwise returns the order-preserving concatenation.  Written
from the words of the spec to be compared with `pdConcat`, the loader the code
actually runs. -/
def loaderSpec (tables : List Table) :
    Except LoadError (List String × List (List (String × Option Int))) :=
  match tables with
  | [] => Except.ok ([], [])
  | t :: ts =>
    if ts.all (fun t2 => sameColumnSet t.cols t2.cols) then
      Except.ok (pdConcat (t :: ts))
    else
      Except.error LoadError.schemaMismatch

/-- The configuration constants of the notebook (`w`, `lookback`,
`time_split`, the cut positions derived from `test_size`, and the seeded
shuffle of the machine identifiers for the asset split). -/
structure Config where
  w : Int
  lookback : Int
  nTrain : Nat
  time_split : Bool
  permAssets : List Nat
  nTrainAssets : Nat

/-- The notebook mutable global state: the loaded `combined_df`, the
pre-filtered `data`, the `train`/`test` frames, and the label columns. -/
structure PipelineState where
  combined : List Record
  data : List Record
  train : List Record
  test : List Record
  yTrain : List String
  yTest : List String
  yTrainRes : List String

/-- The false-negative pre-filter cell: `data` is computed from
`combined_df`; `combined_df` itself is not written. -/
def prepStage (cfg : Config) (s : PipelineState) : PipelineState :=
  { s with data := preFilter s.combined cfg.w }

/-- The split cell.  The time branch sorts `data` in place
(`set_index`/`sort_index` with `inplace=True`) — modelled by updating the
`data` field — and derives `train`/`test`; the asset branch only filters. -/
def partitionStage (cfg : Config) (s : PipelineState) : PipelineState :=
  if cfg.time_split then
    { s with data := sortByEntry s.data,
             train := (timeSplit s.data cfg.nTrain cfg.lookback).1,
             test := (timeSplit s.data cfg.nTrain cfg.lookback).2 }
  else
    { s with train := (assetIdSplit s.data cfg.permAssets cfg.nTrainAssets).1,
             test := (assetIdSplit s.data cfg.permAssets cfg.nTrainAssets).2 }

/-- The label-assignment cell: `X_train, Y_train = xy(train, w)` and the
same for test; only the derived label columns are written. -/
def labelStage (cfg : Config) (s : PipelineState) : PipelineState :=
  { s with yTrain := s.train.map (fun r => labelOf r cfg.w),
           yTest := s.test.map (fun r => labelOf r cfg.w) }

/-- The SMOTE cell: `Y_train_res` is derived from the train labels; the
test labels are untouched. -/
def balanceStage (s : PipelineState) : PipelineState :=
  { s with yTrainRes := smoteBalance s.yTrain }

/-- The data-preparation pipeline after loading, stage by stage. -/
def pipelineAfterLoad (cfg : Config) (s : PipelineState) : PipelineState :=
  balanceStage (labelStage cfg (partitionStage cfg (prepStage cfg s)))

/-- The cycle values `1, 2, ..., n` as integers. -/
def intRangeFrom1 (n : Nat) : List Int :=
  (List.range n).map (fun i => Int.ofNat i + 1)

/-- Helper to build a concrete record. -/
def mkRec (e m : Nat) (c : Int) (rul : Option Int) (fl : String) : Record :=
  { entryID := e, machineID := m, cycle := c, sequenceID := m, rul := rul,
    failure := fl, features := [1] }

/-- The string constant for failure type one. -/
def sF1 : String := "F1"

/-- A record one cycle away from failure (`rul = 0`) with a non-null
failure code. -/
def rZero : Record := mkRec 1 1 10 (some 0) sF1

/-- Concrete record of machine 2, early cycle, censored run. -/
def rD : Record := mkRec 0 2 10 none ""

/-- Concrete record of machine 1 at cycle 44. -/
def rA : Record := mkRec 1 1 44 (some 9) sF1

/-- Concrete record of machine 1 at cycle 45. -/
def rB : Record := mkRec 2 1 45 (some 8) sF1

/-- Concrete record of machine 1 at cycle 50. -/
def rC : Record := mkRec 3 1 50 (some 3) sF1

/-- A concrete four-record dataset over machines 1 and 2. -/
def d0 : List Record := [rD, rA, rB, rC]

/-- Machine 5, cycle 1, censored (null `rul`). -/
def q1 : Record := mkRec 10 5 1 none ""

/-- Machine 5, cycle 2, censored. -/
def q2 : Record := mkRec 11 5 2 none ""

/-- Machine 5, cycle 3, censored. -/
def q3 : Record := mkRec 12 5 3 none ""

/-- Machine 6, failing run (non-null `rul`). -/
def q6 : Record := mkRec 13 6 9 (some 4) "F2"

/-- Concrete dataset with one censored machine and one failing machine. -/
def dC4 : List Record := [q1, q2, q3, q6]

/-- A source table with a single column. -/
def tA : Table := { cols := ["a"], rows := [[("a", 1)]] }

/-- A source table with two columns: its column set differs from `tA`. -/
def tB : Table := { cols := ["a", "b"], rows := [[("a", 2), ("b", 3)]] }

/-- A two-column source table. -/
def tC1 : Table := { cols := ["a", "b"], rows := [[("a", 1), ("b", 2)]] }

/-- A second source table with the same schema as `tC1`. -/
def tC2 : Table := { cols := ["a", "b"], rows := [[("a", 3), ("b", 4)]] }

/-- Concrete label column for the balancer. -/
def lab0 : List String := ["NONE", "NONE", "F1"]

/-! ## General helper lemmas -/

theorem contains_true_iff {α : Type} [BEq α] [LawfulBEq α] {l : List α} {a : α} :
    l.contains a = true ↔ a ∈ l :=
  List.elem_iff

theorem mem_sortByEntry {r : Record} {data : List Record} :
    r ∈ sortByEntry data ↔ r ∈ data :=
  (List.perm_insertionSort _ data).mem_iff

theorem mem_of_timeSplit_train {r : Record} {data : List Record} {nTrain : Nat}
    {lookback : Int} (h : r ∈ (timeSplit data nTrain lookback).1) : r ∈ data :=
  mem_sortByEntry.mp (List.mem_of_mem_take (List.mem_of_mem_filter h))

theorem mem_of_timeSplit_test {r : Record} {data : List Record} {nTrain : Nat}
    {lookback : Int} (h : r ∈ (timeSplit data nTrain lookback).2) : r ∈ data :=
  mem_sortByEntry.mp (List.mem_of_mem_drop h)

theorem mem_of_assetIdSplit_train {r : Record} {data : List Record} {perm : List Nat}
    {nA : Nat} (h : r ∈ (assetIdSplit data perm nA).1) : r ∈ data :=
  List.mem_of_mem_filter h

theorem mem_of_assetIdSplit_test {r : Record} {data : List Record} {perm : List Nat}
    {nA : Nat} (h : r ∈ (assetIdSplit data perm nA).2) : r ∈ data :=
  List.mem_of_mem_filter h

theorem assetIdSplit_train_iff {data : List Record} {perm : List Nat} {nA : Nat}
    {r : Record} :
    r ∈ (assetIdSplit data perm nA).1 ↔
      r ∈ data ∧ (perm.take nA).contains r.machineID = true := by
  simp only [assetIdSplit]
  exact List.mem_filter

theorem assetIdSplit_test_iff {data : List Record} {perm : List Nat} {nA : Nat}
    {r : Record} :
    r ∈ (assetIdSplit data perm nA).2 ↔
      r ∈ data ∧ (perm.drop nA).contains r.machineID = true := by
  simp only [assetIdSplit]
  exact List.mem_filter

/-! ## Claim theorems -/

/-- C1: the claim says the label equals the failure code whenever `rul` is
not null and `rul < w`.  The code disagrees at `rul = 0`: the guard
`row.rul and row.rul < w` treats the number 0 as falsy, so a record one
cycle from failure is labeled NONE.  This theorem evaluates the embedded
labeling function at the failing input (`w = 1`, `rul = w - 1 = 0`,
failure code F1, and also `w = 7`): the label is the empty string, not the
failure code of the record, contradicting both the claim and the own
label formula of the notebook. -/
theorem c1_label_zero_rul_divergence :
    rZero.rul = some 0 ∧ rZero.failure = sF1 ∧ sF1 ≠ "" ∧
    labelOf rZero 1 = "" ∧ labelOf rZero 7 = "" :=
  ⟨rfl, rfl, by decide, rfl, rfl⟩

/-- C7: the feature matrix emitted by `xy` contains none of the columns
`cycle`, `failure`, `rul`, `sequenceID`, `machineID`: they are all in
`columns_to_drop` and `drop` removes them. -/
theorem c7_feature_columns_excluded (f : Frame) :
    colCycle ∉ xyFeatureCols f ∧ colFailure ∉ xyFeatureCols f ∧
    colRul ∉ xyFeatureCols f ∧ colSequenceID ∉ xyFeatureCols f ∧
    colMachineID ∉ xyFeatureCols f := by
  have key : ∀ c, c ∈ columnsToDrop → c ∉ xyFeatureCols f := by
    intro c hc hmem
    have hp := List.of_mem_filter hmem
    have hct : columnsToDrop.contains c = true := contains_true_iff.mpr hc
    rw [hct] at hp
    simp at hp
  refine ⟨key _ ?_, key _ ?_, key _ ?_, key _ ?_, key _ ?_⟩ <;> decide

/-- C10: both split branches set `entryID` as the dataframe index, and
`xy` begins with `reset_index(drop=True)`, so `entryID` never reaches the
emitted feature columns even though it is not in `columns_to_drop`. -/
theorem c10_entry_id_excluded (f : Frame) :
    colEntryID ∉ xyFeatureCols (setIndexEntry f) := by
  intro hmem
  have h1 : colEntryID ∈ (setIndexEntry f).cols :=
    List.mem_of_mem_filter hmem
  have h2 := List.of_mem_filter h1
  simp at h2

/-- C9: the partitioning, labeling and balancing stages write only derived
fields of the pipeline state; the loaded unified dataset (`combined_df`)
is left unchanged by each stage and by their composition. -/
theorem c9_stages_preserve_combined (cfg : Config) (s : PipelineState) :
    (prepStage cfg s).combined = s.combined ∧
    (partitionStage cfg s).combined = s.combined ∧
    (labelStage cfg s).combined = s.combined ∧
    (balanceStage s).combined = s.combined ∧
    (pipelineAfterLoad cfg s).combined = s.combined := by
  cases h : cfg.time_split <;>
    simp [prepStage, partitionStage, labelStage, balanceStage, pipelineAfterLoad, h]

/-- C2: under the time-ordered split, every surviving train record of a
machine that has test records has `cycle < min_test_cycle(machine) -
lookback` (equivalently, no train record with
`cycle >= min_test_cycle(machine) - lookback` exists), and every
candidate-train record of a machine absent from the test side is kept. -/
theorem c2_time_split_exclusion (data : List Record) (nTrain : Nat) (lookback : Int) :
    (∀ r ∈ (timeSplit data nTrain lookback).1, ∀ mc : Int,
        minTestCycle (timeSplit data nTrain lookback).2 r.machineID = some mc →
        r.cycle < mc - lookback) ∧
    (∀ r ∈ (sortByEntry data).take nTrain,
        minTestCycle (timeSplit data nTrain lookback).2 r.machineID = none →
        r ∈ (timeSplit data nTrain lookback).1) := by
  simp only [timeSplit]
  constructor
  · intro r hr mc hmc
    have hk := List.of_mem_filter hr
    unfold timeKeep at hk
    rw [hmc] at hk
    simpa using hk
  · intro r hr hnone
    refine List.mem_filter.mpr ⟨hr, ?_⟩
    unfold timeKeep
    rw [hnone]

/-- C2 witness: in the concrete dataset `d0` with cut position 3 and
lookback 5, the machine 1 test cycles start at 50, and the surviving
machine-1 train record `rA` indeed has cycle below 45, while machine 2
(absent from test) keeps its record `rD`. -/
theorem c2_time_split_exclusion_witness :
    rA.cycle < 50 - 5 ∧ rD ∈ (timeSplit d0 3 5).1 :=
  ⟨(c2_time_split_exclusion d0 3 5).1 rA (by decide) 50 (by decide),
   (c2_time_split_exclusion d0 3 5).2 rD (by decide) (by decide)⟩

/-- C6: under the asset-identifier split (machine identifiers listed in
`perm` without duplicates and split at `nA`), any two records of the same
machine land on the same side, never on opposite sides, and every record
lands on some side. -/
theorem c6_asset_split_purity (data : List Record) (perm : List Nat) (nA : Nat)
    (hP : perm.Nodup) (hcov : ∀ r ∈ data, r.machineID ∈ perm)
    (r1 r2 : Record) (h1 : r1 ∈ data) (h2 : r2 ∈ data)
    (hm : r1.machineID = r2.machineID) :
    (r1 ∈ (assetIdSplit data perm nA).1 → r2 ∈ (assetIdSplit data perm nA).1) ∧
    (r1 ∈ (assetIdSplit data perm nA).2 → r2 ∈ (assetIdSplit data perm nA).2) ∧
    ¬(r1 ∈ (assetIdSplit data perm nA).1 ∧ r2 ∈ (assetIdSplit data perm nA).2) ∧
    (r1 ∈ (assetIdSplit data perm nA).1 ∨ r1 ∈ (assetIdSplit data perm nA).2) := by
  have hdisj : (perm.take nA).Disjoint (perm.drop nA) := by
    rw [← List.take_append_drop nA perm] at hP
    exact (List.nodup_append.mp hP).2.2
  refine ⟨?_, ?_, ?_, ?_⟩
  · intro hr1
    have hc := (assetIdSplit_train_iff.mp hr1).2
    exact assetIdSplit_train_iff.mpr ⟨h2, by rw [← hm]; exact hc⟩
  · intro hr1
    have hc := (assetIdSplit_test_iff.mp hr1).2
    exact assetIdSplit_test_iff.mpr ⟨h2, by rw [← hm]; exact hc⟩
  · rintro ⟨ha, hb⟩
    have hca := contains_true_iff.mp (assetIdSplit_train_iff.mp ha).2
    have hcb := contains_true_iff.mp (assetIdSplit_test_iff.mp hb).2
    rw [hm] at hca
    exact hdisj hca hcb
  · have hmem := hcov r1 h1
    rw [← List.take_append_drop nA perm] at hmem
    rcases List.mem_append.mp hmem with h | h
    · exact Or.inl (assetIdSplit_train_iff.mpr ⟨h1, contains_true_iff.mpr h⟩)
    · exact Or.inr (assetIdSplit_test_iff.mpr ⟨h1, contains_true_iff.mpr h⟩)

/-- C6 witness: in `d0` with machines [1, 2] split at 1, record `rB`
follows its machine-mate `rA` into the train side, and the two are never
on opposite sides. -/
theorem c6_asset_split_purity_witness :
    rB ∈ (assetIdSplit d0 [1, 2] 1).1 ∧
    ¬(rA ∈ (assetIdSplit d0 [1, 2] 1).1 ∧ rB ∈ (assetIdSplit d0 [1, 2] 1).2) :=
  ⟨(c6_asset_split_purity d0 [1, 2] 1 (by decide) (by decide) rA rB (by decide)
      (by decide) (by decide)).1 (by decide),
   (c6_asset_split_purity d0 [1, 2] 1 (by decide) (by decide) rA rB (by decide)
      (by decide) (by decide)).2.2.1⟩

/-- C3: for a dataset with unique `entryID` values, both split strategies
produce train and test sets that are disjoint over `entryID`, and every
produced record comes from the input dataset. -/
theorem c3_partition_disjoint_and_subset (data : List Record) (nTrain : Nat)
    (lookback : Int) (perm : List Nat) (nA : Nat)
    (hE : (data.map Record.entryID).Nodup) (hP : perm.Nodup) :
    (∀ r1 ∈ (timeSplit data nTrain lookback).1,
        ∀ r2 ∈ (timeSplit data nTrain lookback).2, r1.entryID ≠ r2.entryID) ∧
    (∀ r ∈ (timeSplit data nTrain lookback).1, r ∈ data) ∧
    (∀ r ∈ (timeSplit data nTrain lookback).2, r ∈ data) ∧
    (∀ r1 ∈ (assetIdSplit data perm nA).1,
        ∀ r2 ∈ (assetIdSplit data perm nA).2, r1.entryID ≠ r2.entryID) ∧
    (∀ r ∈ (assetIdSplit data perm nA).1, r ∈ data) ∧
    (∀ r ∈ (assetIdSplit data perm nA).2, r ∈ data) := by
  have hperm : (sortByEntry data).Perm data := List.perm_insertionSort _ _
  have hEd : ((sortByEntry data).map Record.entryID).Nodup :=
    ((hperm.map _).nodup_iff).mpr hE
  refine ⟨?_, fun r hr => mem_of_timeSplit_train hr,
          fun r hr => mem_of_timeSplit_test hr, ?_,
          fun r hr => mem_of_assetIdSplit_train hr,
          fun r hr => mem_of_assetIdSplit_test hr⟩
  · intro r1 hr1 r2 hr2 heq
    have hr1t : r1 ∈ (sortByEntry data).take nTrain := List.mem_of_mem_filter hr1
    have hr2d : r2 ∈ (sortByEntry data).drop nTrain := hr2
    rw [← List.take_append_drop nTrain (sortByEntry data), List.map_append] at hEd
    have hdisj := (List.nodup_append.mp hEd).2.2
    have hmem1 : r1.entryID ∈ ((sortByEntry data).take nTrain).map Record.entryID :=
      List.mem_map_of_mem _ hr1t
    have hmem2 : r1.entryID ∈ ((sortByEntry data).drop nTrain).map Record.entryID := by
      rw [heq]; exact List.mem_map_of_mem _ hr2d
    exact hdisj hmem1 hmem2
  · intro r1 hr1 r2 hr2 heq
    have h1d := mem_of_assetIdSplit_train hr1
    have h2d := mem_of_assetIdSplit_test hr2
    have hre : r1 = r2 := List.inj_on_of_nodup_map hE h1d h2d heq
    have hca := contains_true_iff.mp (assetIdSplit_train_iff.mp hr1).2
    have hcb := contains_true_iff.mp (assetIdSplit_test_iff.mp hr2).2
    rw [← hre] at hcb
    rw [← List.take_append_drop nA perm] at hP
    exact (List.nodup_append.mp hP).2.2 hca hcb

/-- C3 witness: in `d0` with cut 3, lookback 5, machines [1, 2] split at
1, a concrete train record and test record have distinct entry
identifiers, and a concrete test record comes from the input dataset. -/
theorem c3_partition_disjoint_and_subset_witness :
    rA.entryID ≠ rC.entryID ∧ rC ∈ d0 :=
  ⟨(c3_partition_disjoint_and_subset d0 3 5 [1, 2] 1 (by decide) (by decide)).1
      rA (by decide) rC (by decide),
   (c3_partition_disjoint_and_subset d0 3 5 [1, 2] 1 (by decide) (by decide)).2.2.1
      rC (by decide)⟩

theorem intRangeFrom1_succ (n : Nat) :
    intRangeFrom1 (n + 1) = intRangeFrom1 n ++ [(n : Int) + 1] := by
  unfold intRangeFrom1
  rw [List.range_succ, List.map_append]
  rfl

theorem foldlMax1_append_single (l : List Int) (x : Int) :
    foldlMax1 (l ++ [x]) = some ((foldlMax1 l).elim x (fun mx => max mx x)) := by
  cases l with
  | nil => rfl
  | cons c cs => simp [foldlMax1, List.foldl_append, Option.elim]

theorem foldlMax1_intRange (n : Nat) (hn : 0 < n) :
    foldlMax1 (intRangeFrom1 n) = some ((n : Int)) := by
  induction n with
  | zero => exact absurd hn (by decide)
  | succ k ih =>
    rw [intRangeFrom1_succ, foldlMax1_append_single]
    rcases Nat.eq_zero_or_pos k with hk | hk
    · subst hk
      decide
    · rw [ih hk]
      simp only [Option.elim]
      congr 1
      push_cast
      omega

theorem mem_preFilter_iff {data : List Record} {w : Int} {r : Record} :
    r ∈ preFilter data w ↔ r ∈ data ∧
      (match maxCycleOf data r.machineID w with
       | none => true
       | some mc => decide (r.cycle ≤ mc)) = true := by
  unfold preFilter
  exact List.mem_filter

/-- C4: the false-negative pre-filter keeps every record of a machine
with no null-`rul` record, and for a machine whose run is censored (all
its records have null `rul`) with cycles `1, ..., n` it keeps a record
iff its cycle is at most `n - min n w` — i.e. it removes exactly the
trailing `min(run_length, w)` cycles.  The last conjunct places the
filter before partitioning: in the staged pipeline, every record the
partitioner emits (either strategy, either side) already passed the
dataset-wide pre-filter applied to the loaded data. -/
theorem c4_false_negative_prefilter (data : List Record) (m : Nat) (w : Int) (n : Nat)
    (hn : 0 < n)
    (hcyc : (data.filter (fun r => r.machineID == m)).map Record.cycle = intRangeFrom1 n)
    (hnull : ∀ r ∈ data, r.machineID = m → r.rul = none) :
    (∀ r ∈ data, r.machineID = m →
        (r ∈ preFilter data w ↔ r.cycle ≤ (n : Int) - min (n : Int) w)) ∧
    (∀ r ∈ data, nullRulRecords data r.machineID = [] → r ∈ preFilter data w) ∧
    (∀ (cfg : Config) (s : PipelineState),
        (∀ r ∈ (partitionStage cfg (prepStage cfg s)).train,
            r ∈ preFilter s.combined cfg.w) ∧
        (∀ r ∈ (partitionStage cfg (prepStage cfg s)).test,
            r ∈ preFilter s.combined cfg.w)) := by
  have hG : nullRulRecords data m = data.filter (fun r => r.machineID == m) := by
    unfold nullRulRecords
    apply List.filter_congr
    intro r hr
    rcases Bool.eq_false_or_eq_true (r.machineID == m) with hmr | hmr
    · have hrul := hnull r hr (by simpa using hmr)
      rw [hrul, hmr]
      rfl
    · rw [hmr, Bool.and_false]
  have hlen : (data.filter (fun r => r.machineID == m)).length = n := by
    have hl := congrArg List.length hcyc
    simpa [intRangeFrom1] using hl
  have hmax : maxCycleOf data m w = some ((n : Int) - min (n : Int) w) := by
    unfold maxCycleOf
    rw [hG, hcyc, hlen, foldlMax1_intRange n hn]
    rfl
  refine ⟨?_, ?_, ?_⟩
  · intro r hr hm
    constructor
    · intro hmem
      have hp := (mem_preFilter_iff.mp hmem).2
      rw [hm, hmax] at hp
      simpa using hp
    · intro hle
      refine mem_preFilter_iff.mpr ⟨hr, ?_⟩
      rw [hm, hmax]
      simpa using hle
  · intro r hr hnil
    refine mem_preFilter_iff.mpr ⟨hr, ?_⟩
    unfold maxCycleOf
    rw [hnil]
    rfl
  · intro cfg s
    cases hts : cfg.time_split
    · constructor <;> intro r hr
      · have hr2 : r ∈ (assetIdSplit (prepStage cfg s).data cfg.permAssets
            cfg.nTrainAssets).1 := by
          simpa [partitionStage, hts] using hr
        exact mem_of_assetIdSplit_train hr2
      · have hr2 : r ∈ (assetIdSplit (prepStage cfg s).data cfg.permAssets
            cfg.nTrainAssets).2 := by
          simpa [partitionStage, hts] using hr
        exact mem_of_assetIdSplit_test hr2
    · constructor <;> intro r hr
      · have hr2 : r ∈ (timeSplit (prepStage cfg s).data cfg.nTrain cfg.lookback).1 := by
          simpa [partitionStage, hts] using hr
        exact mem_of_timeSplit_train hr2
      · have hr2 : r ∈ (timeSplit (prepStage cfg s).data cfg.nTrain cfg.lookback).2 := by
          simpa [partitionStage, hts] using hr
        exact mem_of_timeSplit_test hr2

/-- C4 witness: in `dC4`, machine 5 is censored with cycles 1..3; with
horizon 2 the pre-filter keeps its cycle-1 record (and removes the
trailing `min(3, 2) = 2` cycles), while machine 6 (no null `rul`) keeps
its record. -/
theorem c4_false_negative_prefilter_witness :
    q1 ∈ preFilter dC4 2 ∧ q6 ∈ preFilter dC4 2 :=
  ⟨((c4_false_negative_prefilter dC4 5 2 3 (by decide) (by decide) (by decide)).1
      q1 (by decide) (by decide)).mpr (by decide),
   (c4_false_negative_prefilter dC4 5 2 3 (by decide) (by decide) (by decide)).2.1
      q6 (by decide) (by decide)⟩

theorem le_foldl_max (l : List Nat) (b : Nat) : b ≤ l.foldl Nat.max b := by
  induction l generalizing b with
  | nil => exact Nat.le_refl b
  | cons x xs ih => exact Nat.le_trans (Nat.le_max_left b x) (ih (Nat.max b x))

theorem mem_le_foldl_max {a : Nat} (l : List Nat) (b : Nat) (ha : a ∈ l) :
    a ≤ l.foldl Nat.max b := by
  induction l generalizing b with
  | nil => cases ha
  | cons x xs ih =>
    rcases List.mem_cons.mp ha with h | h
    · subst h
      exact Nat.le_trans (Nat.le_max_right b a) (le_foldl_max xs (Nat.max b a))
    · exact ih (Nat.max b x) h

theorem countLabel_le_majority {labels : List String} {c : String} (hc : c ∈ labels) :
    countLabel labels c ≤ majorityCount labels :=
  mem_le_foldl_max (labels.map (countLabel labels)) 0
    (List.mem_map_of_mem (countLabel labels) hc)

theorem count_flatMap_replicate (classes : List String) (f : String → Nat) (c : String)
    (hnd : classes.Nodup) :
    List.count c (classes.flatMap (fun x => List.replicate (f x) x)) =
      if c ∈ classes then f c else 0 := by
  induction classes with
  | nil => simp
  | cons x xs ih =>
    have hx : x ∉ xs := (List.nodup_cons.mp hnd).1
    rw [List.flatMap_cons, List.count_append, List.count_replicate,
        ih (List.nodup_cons.mp hnd).2]
    by_cases hcx : x = c
    · subst hcx
      simp [hx]
    · simp [hcx, Ne.symm hcx]

/-- C5: spec-modelled class balancer.  For a training label column with at
least two classes, after balancing every class present in the input has
cardinality equal to the pre-balance majority-class count. -/
theorem c5_balanced_class_counts (labels : List String) (c : String)
    (_h2cls : 2 ≤ labels.dedup.length) (hc : c ∈ labels) :
    countLabel (smoteBalance labels) c = majorityCount labels := by
  have hpad : List.count c (smotePad labels) =
      if c ∈ labels.dedup then majorityCount labels - countLabel labels c else 0 := by
    unfold smotePad
    exact count_flatMap_replicate labels.dedup
      (fun x => majorityCount labels - countLabel labels x) c (List.nodup_dedup labels)
  have hsum : countLabel (smoteBalance labels) c
      = countLabel labels c + List.count c (smotePad labels) := by
    unfold smoteBalance countLabel
    exact List.count_append c labels (smotePad labels)
  rw [hsum, hpad, if_pos (List.mem_dedup.mpr hc)]
  have hle := countLabel_le_majority hc
  omega

/-- C5 witness: balancing the concrete label column
`["NONE", "NONE", "F1"]` brings class F1 up to the majority count 2. -/
theorem c5_balanced_class_counts_witness :
    countLabel (smoteBalance lab0) sF1 = 2 :=
  (c5_balanced_class_counts lab0 sF1 (by decide) (by decide)).trans (by decide)

theorem firstDedupAux_nodup (C : List String) : ∀ (seen : List String), C.Nodup →
    (∀ x ∈ C, x ∉ seen) → firstDedupAux seen C = C := by
  induction C with
  | nil => intro seen _ _; rfl
  | cons c cs ih =>
    intro seen hnd hdis
    unfold firstDedupAux
    have hcn : seen.contains c = false := by
      rcases Bool.eq_false_or_eq_true (seen.contains c) with h | h
      · exact absurd (contains_true_iff.mp h) (hdis c (List.mem_cons_self c cs))
      · exact h
    rw [hcn]
    simp only [Bool.false_eq_true, if_false]
    congr 1
    refine ih (c :: seen) (List.nodup_cons.mp hnd).2 ?_
    intro x hx hmem
    rcases List.mem_cons.mp hmem with h | h
    · exact absurd (h ▸ hx) (List.nodup_cons.mp hnd).1
    · exact hdis x (List.mem_cons_of_mem c hx) h

theorem firstDedupAux_append_subset (l1 : List String) : ∀ (l2 seen : List String),
    (∀ x ∈ l2, x ∈ seen ∨ x ∈ l1) →
    firstDedupAux seen (l1 ++ l2) = firstDedupAux seen l1 := by
  induction l1 with
  | nil =>
    intro l2 seen h
    have hall : ∀ x ∈ l2, x ∈ seen := by
      intro x hx
      rcases h x hx with h2 | h2
      · exact h2
      · exact absurd h2 (List.not_mem_nil x)
    show firstDedupAux seen l2 = firstDedupAux seen []
    induction l2 with
    | nil => rfl
    | cons c cs ih2 =>
      unfold firstDedupAux
      rw [contains_true_iff.mpr (hall c (List.mem_cons_self c cs))]
      simp only [if_true]
      exact ih2 (fun x hx => h x (List.mem_cons_of_mem c hx))
        (fun x hx => hall x (List.mem_cons_of_mem c hx))
  | cons c cs ih =>
    intro l2 seen h
    show firstDedupAux seen (c :: (cs ++ l2)) = firstDedupAux seen (c :: cs)
    unfold firstDedupAux
    rcases Bool.eq_false_or_eq_true (seen.contains c) with hc | hc
    · rw [hc]
      simp only [if_true]
      refine ih l2 seen ?_
      intro x hx
      rcases h x hx with h2 | h2
      · exact Or.inl h2
      · rcases List.mem_cons.mp h2 with h3 | h3
        · exact Or.inl (h3 ▸ contains_true_iff.mp hc)
        · exact Or.inr h3
    · rw [hc]
      simp only [Bool.false_eq_true, if_false]
      congr 1
      refine ih l2 (c :: seen) ?_
      intro x hx
      rcases h x hx with h2 | h2
      · exact Or.inl (List.mem_cons_of_mem c h2)
      · rcases List.mem_cons.mp h2 with h3 | h3
        · exact Or.inl (h3 ▸ List.mem_cons_self c seen)
        · exact Or.inr h3

theorem alignRow_self (row : List (String × Int)) : ∀ (C : List String),
    row.map Prod.fst = C → C.Nodup →
    alignRow C row = row.map (fun p => (p.1, some p.2)) := by
  induction row with
  | nil =>
    intro C hC _
    rw [← hC]
    rfl
  | cons p ps ih =>
    intro C hC hnd
    rw [← hC] at hnd ⊢
    rw [List.map_cons] at hnd ⊢
    have hnotin : p.1 ∉ ps.map Prod.fst := (List.nodup_cons.mp hnd).1
    have hnd2 : (ps.map Prod.fst).Nodup := (List.nodup_cons.mp hnd).2
    show List.map (fun c => (c, (List.find? (fun q => q.1 == c) (p :: ps)).map Prod.snd))
        (p.1 :: ps.map Prod.fst) = _
    rw [List.map_cons]
    congr 1
    · rw [List.find?_cons_of_pos _ (by simp)]
      rfl
    · rw [← ih (ps.map Prod.fst) rfl hnd2]
      show _ = List.map (fun c => (c, (List.find? (fun q => q.1 == c) ps).map Prod.snd))
          (ps.map Prod.fst)
      apply List.map_congr_left
      intro c hcmem
      have hne : ¬((fun q : String × Int => q.1 == c) p) = true := by
        intro hb
        have hpc : p.1 = c := by simpa using hb
        exact hnotin (hpc ▸ hcmem)
      rw [@List.find?_cons_of_neg (String × Int) (fun q => q.1 == c) p ps hne]

/-- C8 counterexample: the claim says the loader fails with
`SchemaMismatchError` whenever two source tables have differing column
sets.  At the concrete input `[tA, tB]` (column sets {a} and {a, b}) the
spec-modelled loader indeed errors, but the call `pd.concat` of the code does not
fail: it returns the union-of-columns concatenation with a null filling
the missing cell. -/
theorem c8_loader_counterexample :
    loaderSpec [tA, tB] = Except.error LoadError.schemaMismatch ∧
    pdConcat [tA, tB] =
      (["a", "b"], [[("a", some 1), ("b", none)], [("a", some 2), ("b", some 3)]]) :=
  ⟨rfl, rfl⟩

/-- C8 amended: when all source tables share one identical column list
(with distinct names) and every row carries exactly those columns, the
loader returns that schema and the order-preserving concatenation of all
source rows, with no deduplication; on differing column sets it does not
fail but concatenates over the union of the columns. -/
theorem c8_loader_concat_amended (tables : List Table) (C : List String)
    (hne : tables ≠ [])
    (hcols : ∀ t ∈ tables, t.cols = C)
    (hnd : C.Nodup)
    (hrows : ∀ t ∈ tables, ∀ row ∈ t.rows, row.map Prod.fst = C) :
    pdConcat tables =
      (C, (tables.flatMap Table.rows).map
            (fun row => row.map (fun p => (p.1, some p.2)))) := by
  have hcolsEq : firstDedup (tables.flatMap Table.cols) = C := by
    cases tables with
    | nil => exact absurd rfl hne
    | cons t ts =>
      rw [List.flatMap_cons, hcols t (List.mem_cons_self t ts)]
      unfold firstDedup
      rw [firstDedupAux_append_subset C (ts.flatMap Table.cols) [] ?_]
      · exact firstDedupAux_nodup C [] hnd (by simp)
      · intro x hx
        right
        obtain ⟨t2, ht2, hx2⟩ := List.mem_flatMap.mp hx
        rw [hcols t2 (List.mem_cons_of_mem t ht2)] at hx2
        exact hx2
  unfold pdConcat
  rw [hcolsEq]
  refine congrArg (fun z => (C, z)) ?_
  apply List.map_congr_left
  intro row hrow
  obtain ⟨t, ht, hr⟩ := List.mem_flatMap.mp hrow
  exact alignRow_self row C (hrows t ht row hr) hnd

/-- C8 amended witness: two concrete tables sharing the schema [a, b]
concatenate in order with values preserved. -/
theorem c8_loader_concat_amended_witness :
    pdConcat [tC1, tC2] =
      (["a", "b"], [[("a", some 1), ("b", some 2)], [("a", some 3), ("b", some 4)]]) :=
  (c8_loader_concat_amended [tC1, tC2] ["a", "b"] (by decide) (by decide) (by decide)
    (by decide)).trans (by decide)
